import Mathlib

/-
Shallow embedding of the multi-agent orchestrator core of this repository
(core/agent_orchestrator.py and core/agent_collaboration.py).

Modelling conventions:
- Python dicts that preserve insertion order are association lists
  `List (String × β)`; dict assignment is `setEntry` (replace in place if the
  key exists, append otherwise), dict lookup is `List.lookup`.
- Python floats in the metric formulas are modelled as exact rationals `ℚ`.
- `datetime.now()` is a logical clock: a `Nat` counter in the state that is
  ticked at each call site.
- Raising an exception is returning `Except.error`; state mutated before the
  raise is carried alongside the error, mirroring in-place mutation.
- The cooperative concurrency of `asyncio.gather` is serialised: tasks of one
  ready round run one after the other, and each raised exception is captured
  per task (`return_exceptions=True`).
- The worker call `agent.run` (an external LLM call) is an oracle
  `runs : Nat → RunOutcome` giving the outcome of each attempt of a task.
- A ghost event log records status transitions, retry increments and backoff
  sleeps; it is write-only instrumentation used to state temporal claims.
-/

namespace Orchestrator

/-- `TaskStatus` from agent_orchestrator.py. -/
inductive TaskStatus
  | pending
  | in_progress
  | completed
  | failed
  | retrying
deriving DecidableEq

/-- The `.value` string of each status member. -/
def TaskStatus.value : TaskStatus → String
  | .pending => "pending"
  | .in_progress => "in_progress"
  | .completed => "completed"
  | .failed => "failed"
  | .retrying => "retrying"

/-- `TaskPriority` from agent_orchestrator.py (informational only). -/
inductive TaskPriority
  | low
  | medium
  | high
  | critical
deriving DecidableEq

/-- The `Task` dataclass. `result` is the worker's opaque payload, where
`none` models Python `None`. Timestamps are logical clock values. -/
structure Task where
  id : String
  name : String
  priority : TaskPriority
  dependencies : List String
  assigned_agent : Option String
  status : TaskStatus
  max_retries : Nat
  retry_count : Nat
  created_at : Nat
  updated_at : Nat
  result : Option String
  error : Option String
deriving DecidableEq

/-- Per-agent entry of `self.agent_metrics`. -/
structure AgentMetrics where
  capabilities : List String
  current_load : ℚ
  success_rate : ℚ
  avg_response_time : ℚ
  last_active : Nat
deriving DecidableEq

/-- Ordered-dict assignment `d[k] = v`: replace in place when the key is
present, append otherwise. -/
def setEntry {β : Type} : List (String × β) → String → β → List (String × β)
  | [], k, v => [(k, v)]
  | p :: rest, k, v =>
    if p.1 = k then (k, v) :: rest else p :: setEntry rest k v

/-- `register_agent`: seed metrics (load 0, success rate 1.0, average
response time 0.0). -/
def register_agent (reg : List (String × AgentMetrics)) (agent_id : String)
    (capabilities : List String) (nowT : Nat) : List (String × AgentMetrics) :=
  setEntry reg agent_id
    { capabilities := capabilities
      current_load := 0
      success_rate := 1
      avg_response_time := 0
      last_active := nowT }

/-- The load threshold `0.8` of `_select_optimal_agent`. -/
def loadThreshold : ℚ := 8/10

/-- The candidate score of `_select_optimal_agent`:
`success_rate*0.4 + (1 - current_load)*0.4 + (1/(avg_response_time+1))*0.2`. -/
def score (m : AgentMetrics) : ℚ :=
  m.success_rate * (4/10) + (1 - m.current_load) * (4/10) +
    (1 / (m.avg_response_time + 1)) * (2/10)

/-- Python `max(candidates, key=lambda x: x[1])`: scan left to right keeping
the first element whose key is not exceeded later. -/
def maxByScore (c : String × ℚ) (cs : List (String × ℚ)) : String × ℚ :=
  cs.foldl (fun best x => if best.2 < x.2 then x else best) c

/-- `_select_optimal_agent`: filter agents whose `current_load < 0.8`, score
them, return the highest-scoring id, or `none` when no candidate exists. -/
def select_optimal_agent (reg : List (String × AgentMetrics)) : Option String :=
  match (reg.filter (fun p => p.2.current_load < loadThreshold)).map
      (fun p => (p.1, score p.2)) with
  | [] => none
  | c :: cs => some (maxByScore c cs).1

/-- The body of `_update_agent_metrics` on one metrics record:
`success_rate = success_rate*0.9 + (1.0 if success else 0.0)*0.1`, and
`avg_response_time = avg_response_time*0.9 + execution_time*0.1` only on
success. -/
def update_metrics_value (m : AgentMetrics) (success : Bool)
    (execution_time : ℚ) : AgentMetrics :=
  { m with
    success_rate := m.success_rate * (9/10) +
      (if success then (1 : ℚ) else 0) * (1/10)
    avg_response_time :=
      if success then m.avg_response_time * (9/10) + execution_time * (1/10)
      else m.avg_response_time }

/-- `_update_agent_metrics` at the registry level. The lookup
`self.agent_metrics[agent_id]` raises `KeyError` when `agent_id` is `None`
or unregistered; that raise is the `Except.error` case. -/
def update_agent_metrics (reg : List (String × AgentMetrics))
    (agent_id : Option String) (success : Bool) (execution_time : ℚ) :
    Except Unit (List (String × AgentMetrics)) :=
  match agent_id with
  | none => .error ()
  | some a =>
    if reg.any (fun p => p.1 = a) then
      .ok (reg.map (fun p =>
        if p.1 = a then (a, update_metrics_value p.2 success execution_time)
        else p))
    else .error ()

/-! ### Knowledge store (agent_collaboration.py) -/

/-- One element of `self.knowledge_store`: contributing agent, content
(already rendered through `str(...)`), creation timestamp. ISO timestamp
strings produced by one process sort chronologically, so the timestamp is a
logical clock value. -/
structure KnowledgeEntry where
  agent_id : String
  content : String
  timestamp : Nat
deriving DecidableEq

/-- `share_knowledge`: append an immutable entry stamped with the current
time. -/
def share_knowledge (store : List KnowledgeEntry) (agent_id : String)
    (content : String) (nowT : Nat) : List KnowledgeEntry :=
  store ++ [{ agent_id := agent_id, content := content, timestamp := nowT }]

/-- The whitespace class of Python `str.split()` with no separator. -/
def isPySpace (c : Char) : Bool :=
  c = ' ' || c = '\t' || c = '\n' || c = '\r' || c = '\x0b' || c = '\x0c'

/-- Accumulator pass of `splitWS`: `cur` holds the reversed current word. -/
def splitWSAux (cur : List Char) : List Char → List (List Char)
  | [] => if cur.isEmpty then [] else [cur.reverse]
  | c :: rest =>
    if isPySpace c then
      if cur.isEmpty then splitWSAux [] rest
      else cur.reverse :: splitWSAux [] rest
    else splitWSAux (c :: cur) rest

/-- Python `str.split()`: split on runs of whitespace, dropping empty
pieces. -/
def splitWS (cs : List Char) : List (List Char) :=
  splitWSAux [] cs

/-- `keyword.lower() in content.lower()`: case-insensitive substring test. -/
def containsLowered (content tok : List Char) : Bool :=
  decide ((tok.map Char.toLower) <:+: (content.map Char.toLower))

/-- The per-entry match of `query_shared_knowledge`:
`any(keyword.lower() in str(entry['content']).lower() for keyword in
query.split())`. -/
def entry_matches (query : String) (e : KnowledgeEntry) : Bool :=
  (splitWS query.data).any (fun tok => containsLowered e.content.data tok)

/-- The comparator of `results.sort(key=lambda x: x['timestamp'],
reverse=True)`: descending order by timestamp. -/
def tsDesc (a b : KnowledgeEntry) : Prop := b.timestamp ≤ a.timestamp

instance : DecidableRel tsDesc := fun a b => Nat.decLe b.timestamp a.timestamp

instance : IsTotal KnowledgeEntry tsDesc :=
  ⟨fun a b => Nat.le_total b.timestamp a.timestamp⟩

instance : IsTrans KnowledgeEntry tsDesc :=
  ⟨fun _ _ _ h1 h2 => Nat.le_trans h2 h1⟩

/-- `query_shared_knowledge`: keep entries matching at least one query token,
sort most recent first, return the first `k`. Python's sort is stable, and a
stable sort for the total preorder `tsDesc` is unique, so the structural
`List.insertionSort` (also stable for `tsDesc`) produces the same list. -/
def query_shared_knowledge (store : List KnowledgeEntry) (query : String)
    (k : Nat) : List KnowledgeEntry :=
  ((store.filter (entry_matches query)).insertionSort tsDesc).take k

/-! ### Task status report (get_task_status) -/

/-- The dict returned by `get_task_status`. -/
structure TaskStatusView where
  id : String
  name : String
  status : String
  assigned_agent : Option String
  retry_count : Nat
  created_at : Nat
  updated_at : Nat
  error : Option String
deriving DecidableEq

/-- `get_task_status`: raise `ValueError` for an unknown id, otherwise report
the task's fields. It only reads the task store. -/
def get_task_status (tasks : List (String × Task)) (task_id : String) :
    Except String TaskStatusView :=
  match tasks.lookup task_id with
  | none => .error ("Task " ++ task_id ++ " not found")
  | some t =>
    .ok
      { id := t.id
        name := t.name
        status := t.status.value
        assigned_agent := t.assigned_agent
        retry_count := t.retry_count
        created_at := t.created_at
        updated_at := t.updated_at
        error := t.error }

/-! ### Executor (execute_workflow, _execute_task, _run_agent_task) -/

/-- Outcome of one `agent.run` call inside `_run_agent_task`: a returned
payload (`none` models a Python `None` result) with the measured elapsed
seconds, or a raised exception message. -/
inductive RunOutcome
  | ok (v : Option String) (elapsed : ℚ)
  | err (msg : String)

/-- The exceptions that can leave `_execute_task`: the selector-exhaustion
`CollaborationError`, a worker-raised exception, and the `KeyError` raised by
`self.agent_metrics[...]` inside the `except` handler. -/
inductive ExecErr
  | collab (msg : String)
  | worker (msg : String)
  | keyErr
deriving DecidableEq

/-- `str(e)` of an escaping exception; `str(KeyError(None))` is `"None"`. -/
def ExecErr.str : ExecErr → String
  | .collab m => m
  | .worker m => m
  | .keyErr => "None"

/-- Ghost instrumentation: one record per status-transition of interest.
`start` is logged when a task is set `IN_PROGRESS` and snapshots the Task
Store statuses of the task's dependencies plus the Executor's working set;
`fail` is logged when the `except` handler increments `retry_count`;
`backoff` is logged at `asyncio.sleep(2 ** retry_count)`. -/
inductive Event
  | start (task_id : String) (deps : List String)
      (depStatuses : List (Option TaskStatus)) (pendingSnap : List String)
  | fail (task_id : String) (newRetryCount : Nat)
  | backoff (task_id : String) (seconds : Nat)
deriving DecidableEq

/-- Shared orchestrator state: the Task Store, the Agent Registry, the
`KnowledgeManager` document list (document, task id, agent id), and the
logical clock standing in for `datetime.now()`. -/
structure WorkState where
  tasks : List (String × Task)
  agent_metrics : List (String × AgentMetrics)
  knowledge_docs : List (String × String × String)
  clock : Nat
deriving DecidableEq

/-- `str(result)` of a worker payload. -/
def valueStr : Option String → String
  | none => "None"
  | some s => s

/-- The `finally` block of `_run_agent_task`: `current_load` is incremented
before the call and decremented here, which cancels out in this serialised
model, and `last_active` is stamped. -/
def touchLastActive (reg : List (String × AgentMetrics)) (a : String)
    (nowT : Nat) : List (String × AgentMetrics) :=
  reg.map (fun p => if p.1 = a then (a, { p.2 with last_active := nowT }) else p)

/-- The `while task.retry_count <= task.max_retries` loop of `_execute_task`.
`fuel` is the loop bound: callers pass `max_retries + 1 - retry_count`, which
is exactly the number of iterations the `while` condition allows, so the
`fuel = 0` exit coincides with the condition turning false (the loop body
always returns, raises, or increments `retry_count`). `ghostPending` is the
Executor's working set, passed only into the ghost log. Returns the raised
exception or returned payload, the task record (written back by the caller),
the shared state, and the grown log. -/
def executeTaskAttempts (runs : Nat → RunOutcome) (ghostPending : List String) :
    Nat → Task → WorkState → List Event →
    Except ExecErr (Option String) × Task × WorkState × List Event
  | 0, t, st, log => (.ok none, t, st, log)
  | fuel + 1, t, st, log =>
    if t.retry_count ≤ t.max_retries then
      match select_optimal_agent st.agent_metrics with
      | none =>
        -- raise CollaborationError("No suitable agent available"), caught by
        -- the except handler with task fields not yet reassigned
        let e := ExecErr.collab "No suitable agent available"
        let t1 : Task := { t with
          retry_count := t.retry_count + 1
          error := some e.str
          status := if t.retry_count + 1 ≤ t.max_retries then
            TaskStatus.retrying else TaskStatus.failed }
        let log1 := log ++ [Event.fail t1.id t1.retry_count]
        match update_agent_metrics st.agent_metrics t1.assigned_agent false 0 with
        | .error _ => (.error ExecErr.keyErr, t1, st, log1)
        | .ok reg1 =>
          if t1.status = TaskStatus.failed then
            (.error e, t1, { st with agent_metrics := reg1 }, log1)
          else
            executeTaskAttempts runs ghostPending fuel t1
              { st with agent_metrics := reg1 }
              (log1 ++ [Event.backoff t1.id (2 ^ t1.retry_count)])
      | some a =>
        let t1 : Task := { t with
          assigned_agent := some a
          status := TaskStatus.in_progress
          updated_at := st.clock }
        let st1 : WorkState := { st with clock := st.clock + 1 }
        let log1 := log ++ [Event.start t1.id t1.dependencies
          (t1.dependencies.map (fun d => (st1.tasks.lookup d).map Task.status))
          ghostPending]
        match runs t1.retry_count with
        | .ok v elapsed =>
          let st2 : WorkState := { st1 with
            knowledge_docs := st1.knowledge_docs ++ [(valueStr v, t1.id, a)]
            agent_metrics := touchLastActive st1.agent_metrics a st1.clock
            clock := st1.clock + 1 }
          match update_agent_metrics st2.agent_metrics (some a) true elapsed with
          | .error _ => (.error ExecErr.keyErr, t1, st2, log1)
          | .ok reg2 =>
            let t2 : Task := { t1 with
              status := TaskStatus.completed
              result := v }
            (.ok v, t2, { st2 with agent_metrics := reg2 }, log1)
        | .err m =>
          let e := ExecErr.worker m
          let st2 : WorkState := { st1 with
            agent_metrics := touchLastActive st1.agent_metrics a st1.clock
            clock := st1.clock + 1 }
          let t2 : Task := { t1 with
            retry_count := t1.retry_count + 1
            error := some e.str
            status := if t1.retry_count + 1 ≤ t1.max_retries then
              TaskStatus.retrying else TaskStatus.failed }
          let log2 := log1 ++ [Event.fail t2.id t2.retry_count]
          match update_agent_metrics st2.agent_metrics t2.assigned_agent false 0 with
          | .error _ => (.error ExecErr.keyErr, t2, st2, log2)
          | .ok reg2 =>
            if t2.status = TaskStatus.failed then
              (.error e, t2, { st2 with agent_metrics := reg2 }, log2)
            else
              executeTaskAttempts runs ghostPending fuel t2
                { st2 with agent_metrics := reg2 }
                (log2 ++ [Event.backoff t2.id (2 ^ t2.retry_count)])
    else
      (.ok none, t, st, log)

/-- `_execute_task`: fetch the task (`self.tasks[task_id]`, a `KeyError` if
absent), run the retry loop, write the mutated task back. -/
def execute_task (runs : Nat → RunOutcome) (ghostPending : List String)
    (task_id : String) (st : WorkState) (log : List Event) :
    Except ExecErr (Option String) × WorkState × List Event :=
  match st.tasks.lookup task_id with
  | none => (.error ExecErr.keyErr, st, log)
  | some t =>
    let r := executeTaskAttempts runs ghostPending
      (t.max_retries + 1 - t.retry_count) t st log
    (r.1, { r.2.2.1 with tasks := setEntry r.2.2.1.tasks task_id r.2.1 },
      r.2.2.2)

/-- The ready-set comprehension of `execute_workflow`: tasks of the working
set none of whose dependencies is still in the working set. -/
def readySet (tasks : List (String × Task)) (pending : List String) :
    List String :=
  pending.filter (fun tid =>
    match tasks.lookup tid with
    | some t => t.dependencies.all (fun dep => !(pending.contains dep))
    | none => false)

/-- `asyncio.gather(*tasks, return_exceptions=True)` serialised: run every
ready task in order, capturing each task's exception as a value. -/
def dispatchAll (runsFor : String → Nat → RunOutcome)
    (ready pendingSnap : List String) (st : WorkState) (log : List Event) :
    WorkState × List Event × List (String × Except ExecErr (Option String)) :=
  match ready with
  | [] => (st, log, [])
  | tid :: rest =>
    let r := execute_task (runsFor tid) pendingSnap tid st log
    let d := dispatchAll runsFor rest pendingSnap r.2.1 r.2.2
    (d.1, d.2.1, (tid, r.1) :: d.2.2)

/-- The `for task_id, result in zip(ready_tasks, completed)` loop: a captured
exception marks the task FAILED and records `str(e)`; a payload is recorded
in the results dict. The matching `pending_tasks.remove(task_id)` calls are
applied at round level as `List.diff` (the working set is only read again
after the loop). -/
def processCompleted
    (pairs : List (String × Except ExecErr (Option String)))
    (st : WorkState) (results : List (String × Option String)) :
    WorkState × List (String × Option String) :=
  match pairs with
  | [] => (st, results)
  | (tid, out) :: rest =>
    match out with
    | .error e =>
      let st1 := match st.tasks.lookup tid with
        | none => st
        | some t =>
          let tf : Task := { t with
            status := TaskStatus.failed
            error := some e.str }
          { st with tasks := setEntry st.tasks tid tf }
      processCompleted rest st1 results
    | .ok v => processCompleted rest st (setEntry results tid v)

/-- Failures of `execute_workflow` itself: a `KeyError` on an unknown working
set id, or the circular-dependency `CollaborationError`. -/
inductive WfErr
  | keyErr
  | collab (msg : String)
deriving DecidableEq

/-- The `while pending_tasks` loop of `execute_workflow`. `fuel` bounds the
number of rounds; callers pass the working set size, which suffices because
every completed round removes at least one task, so under that discipline the
`fuel = 0` arm with a non-empty working set is never reached (it returns the
accumulated results like the loop exit). -/
def executeWorkflowLoop (runsFor : String → Nat → RunOutcome) :
    Nat → WorkState → List Event → List (String × Option String) →
    List String →
    Except WfErr (List (String × Option String)) × WorkState × List Event
  | 0, st, log, results, _ => (.ok results, st, log)
  | fuel + 1, st, log, results, pending =>
    match pending with
    | [] => (.ok results, st, log)
    | _ :: _ =>
      if pending.all (fun tid => (st.tasks.lookup tid).isSome) then
        let ready := readySet st.tasks pending
        if ready = [] then
          (.error (WfErr.collab "Circular dependency detected in workflow"),
            st, log)
        else
          let d := dispatchAll runsFor ready pending st log
          let pr := processCompleted d.2.2 d.1 results
          executeWorkflowLoop runsFor fuel pr.1 d.2.1 pr.2 (pending.diff ready)
      else
        -- self.tasks[t] raised KeyError while computing the ready set
        (.error WfErr.keyErr, st, log)

/-- `execute_workflow`: working set seeded with the entry ids, empty results
dict, empty ghost log. -/
def execute_workflow (runsFor : String → Nat → RunOutcome) (st : WorkState)
    (entry_tasks : List String) :
    Except WfErr (List (String × Option String)) × WorkState × List Event :=
  executeWorkflowLoop runsFor entry_tasks.length st [] [] entry_tasks

/-! ### Concrete fixtures used by witnesses and counterexamples -/

/-- A task as `create_task` builds it (PENDING, `max_retries = 3`,
`retry_count = 0`). -/
def mkTask (tid nm : String) (deps : List String) : Task :=
  { id := tid
    name := nm
    priority := TaskPriority.medium
    dependencies := deps
    assigned_agent := none
    status := TaskStatus.pending
    max_retries := 3
    retry_count := 0
    created_at := 0
    updated_at := 0
    result := none
    error := none }

/-- Metrics of a freshly registered worker. -/
def freshAgent : AgentMetrics :=
  { capabilities := []
    current_load := 0
    success_rate := 1
    avg_response_time := 0
    last_active := 0 }

/-- Store with `task_0` (no dependencies) and `task_1` (depends on
`task_0`), one registered worker. -/
def exStateDep : WorkState :=
  { tasks := [("task_0", mkTask "task_0" "t1" []),
      ("task_1", mkTask "task_1" "t2" ["task_0"])]
    agent_metrics := [("a1", freshAgent)]
    knowledge_docs := []
    clock := 10 }

/-- A worker oracle that always succeeds with payload `"r"` in 1 second. -/
def exRunsOk : String → Nat → RunOutcome := fun _ _ => RunOutcome.ok (some "r") 1

/-- Store with two tasks depending on each other. -/
def exStateCycle : WorkState :=
  { tasks := [("task_0", mkTask "task_0" "A" ["task_1"]),
      ("task_1", mkTask "task_1" "B" ["task_0"])]
    agent_metrics := [("a1", freshAgent)]
    knowledge_docs := []
    clock := 0 }

/-- Store with one fresh task and an empty Agent Registry. -/
def exStateNoAgents : WorkState :=
  { tasks := [("task_0", mkTask "task_0" "t" [])]
    agent_metrics := []
    knowledge_docs := []
    clock := 0 }

/-- Registry of the spec scenario: W1 at load 0, success 1.0, latency 0 and
W2 at load 0.9. -/
def regW12 : List (String × AgentMetrics) :=
  [("W1", freshAgent), ("W2", { freshAgent with current_load := 9/10 })]

/-- Two knowledge entries with distinct contents and timestamps. -/
def exKStore : List KnowledgeEntry :=
  [{ agent_id := "a1", content := "Hello World", timestamp := 1 },
    { agent_id := "a2", content := "goodbye", timestamp := 2 }]

/-- Worker oracle whose every attempt raises. -/
def exRunsFail : Nat → RunOutcome := fun _ => RunOutcome.err "boom"

/-- Per-task worker oracle: every attempt of `task_0` raises, every attempt
of any other task succeeds. -/
def exRunsMixed : String → Nat → RunOutcome := fun tid _ =>
  if tid = "task_0" then RunOutcome.err "boom"
  else RunOutcome.ok (some "r") 1

/-- Store with two independent fresh tasks and one registered worker. -/
def exStateTwo : WorkState :=
  { tasks := [("task_0", mkTask "task_0" "A" []),
      ("task_1", mkTask "task_1" "B" [])]
    agent_metrics := [("a1", freshAgent)]
    knowledge_docs := []
    clock := 0 }

/-! ### Predicates used to state temporal properties over the ghost log -/

/-- A `start` event is sound when none of the task's dependencies is still in
the Executor's working set at dispatch time. -/
def EventOk : Event → Prop
  | .start _ deps _ snap => ∀ d ∈ deps, d ∉ snap
  | .fail _ _ => True
  | .backoff _ _ => True

/-- Shape of the events a single task's retry loop may emit: all carry that
task's id, and `start` events carry its dependency list and the working-set
snapshot the Executor passed in. -/
def EvFor (tid : String) (deps gp : List String) : Event → Prop
  | .start tid2 deps2 _ snap => tid2 = tid ∧ deps2 = deps ∧ snap = gp
  | .fail tid2 _ => tid2 = tid
  | .backoff tid2 _ => tid2 = tid

/-- The new retry count carried by a `fail` event. -/
def failRC : Event → Option Nat
  | .fail _ n => some n
  | _ => none

/-- Whether an event is the `IN_PROGRESS` transition of some task. -/
def isStartEv : Event → Bool
  | .start _ _ _ _ => true
  | _ => false

/-- Whether an event is a backoff sleep. -/
def isBackoffEv : Event → Bool
  | .backoff _ _ => true
  | _ => false

instance {ε α : Type} [DecidableEq ε] [DecidableEq α] :
    DecidableEq (Except ε α) := fun a b =>
  match a, b with
  | .ok x, .ok y =>
    if h : x = y then isTrue (by rw [h]) else
      isFalse (by intro hh; injection hh; exact h (by assumption))
  | .ok _, .error _ => isFalse (fun hh => Except.noConfusion hh)
  | .error _, .ok _ => isFalse (fun hh => Except.noConfusion hh)
  | .error e, .error e2 =>
    if h : e = e2 then isTrue (by rw [h]) else
      isFalse (by intro hh; injection hh; exact h (by assumption))

/-! ## Theorems -/

/-- Dict assignment stores the value at its key. -/
theorem lookup_setEntry_self {β : Type} (l : List (String × β)) (k : String)
    (v : β) : (setEntry l k v).lookup k = some v := by
  induction l with
  | nil => simp [setEntry, List.lookup]
  | cons p rest ih =>
    obtain ⟨k0, v0⟩ := p
    by_cases h : k0 = k
    · simp [setEntry, h, List.lookup]
    · have hbeq : (k == k0) = false := by
        simp only [beq_eq_false_iff_ne]
        exact Ne.symm h
      simp only [setEntry, h, if_false]
      simp [List.lookup, hbeq, ih]

/-- Dict assignment leaves other keys unchanged. -/
theorem lookup_setEntry_ne {β : Type} (l : List (String × β)) (k k2 : String)
    (v : β) (h : k2 ≠ k) : (setEntry l k v).lookup k2 = l.lookup k2 := by
  have hbeq : (k2 == k) = false := by
    simp only [beq_eq_false_iff_ne]
    exact h
  induction l with
  | nil => simp [setEntry, List.lookup, hbeq]
  | cons p rest ih =>
    obtain ⟨k0, v0⟩ := p
    by_cases h0 : k0 = k
    · subst h0
      simp [setEntry, List.lookup, hbeq]
    · simp only [setEntry, h0, if_false]
      simp [List.lookup, ih]

/-- Dict assignment never deletes a key. -/
theorem lookup_setEntry_isSome {β : Type} (l : List (String × β))
    (k k2 : String) (v : β) (h : (l.lookup k2).isSome) :
    ((setEntry l k v).lookup k2).isSome := by
  by_cases hk : k2 = k
  · subst hk; rw [lookup_setEntry_self]; rfl
  · rw [lookup_setEntry_ne l k k2 v hk]; exact h

/-- `maxByScore` returns the seed or a list element. -/
theorem maxByScore_mem (c : String × ℚ) (cs : List (String × ℚ)) :
    maxByScore c cs = c ∨ maxByScore c cs ∈ cs := by
  induction cs generalizing c with
  | nil => left; rfl
  | cons x xs ih =>
    have hstep : maxByScore c (x :: xs) =
        maxByScore (if c.2 < x.2 then x else c) xs := rfl
    rw [hstep]
    rcases ih (if c.2 < x.2 then x else c) with h | h
    · by_cases hc : c.2 < x.2
      · right; rw [h, if_pos hc]; exact List.mem_cons_self x xs
      · left; rw [h, if_neg hc]
    · right; exact List.mem_cons_of_mem x h

/-- `maxByScore` dominates the seed and every list element. -/
theorem maxByScore_ge (c : String × ℚ) (cs : List (String × ℚ)) :
    c.2 ≤ (maxByScore c cs).2 ∧ ∀ x ∈ cs, x.2 ≤ (maxByScore c cs).2 := by
  induction cs generalizing c with
  | nil => exact ⟨le_refl _, by simp⟩
  | cons x xs ih =>
    have hstep : maxByScore c (x :: xs) =
        maxByScore (if c.2 < x.2 then x else c) xs := rfl
    obtain ⟨h1, h2⟩ := ih (if c.2 < x.2 then x else c)
    have hc : c.2 ≤ (if c.2 < x.2 then x else c).2 := by
      by_cases hcx : c.2 < x.2
      · rw [if_pos hcx]; exact le_of_lt hcx
      · rw [if_neg hcx]
    have hx : x.2 ≤ (if c.2 < x.2 then x else c).2 := by
      by_cases hcx : c.2 < x.2
      · rw [if_pos hcx]
      · rw [if_neg hcx]; exact le_of_not_lt hcx
    refine ⟨le_trans hc (hstep ▸ h1), ?_⟩
    intro y hy
    rcases List.mem_cons.mp hy with rfl | hy2
    · exact le_trans hx (hstep ▸ h1)
    · exact hstep ▸ h2 y hy2

/-- The selector returns `none` exactly when no agent is under the load
threshold. -/
theorem select_eq_none_iff (reg : List (String × AgentMetrics)) :
    select_optimal_agent reg = none ↔
      ∀ p ∈ reg, ¬ p.2.current_load < loadThreshold := by
  unfold select_optimal_agent
  rcases hm : (reg.filter
      (fun p => p.2.current_load < loadThreshold)).map
      (fun p => (p.1, score p.2)) with _ | ⟨c, cs⟩ <;> rw [hm]
  · simp only [List.map_eq_nil_iff, List.filter_eq_nil_iff] at hm
    constructor
    · intro _ p hp
      simpa using hm p hp
    · intro _
      rfl
  · constructor
    · intro h
      exact absurd h (by simp)
    · intro h
      exfalso
      have hne : (reg.filter (fun p => p.2.current_load < loadThreshold)).map
          (fun p => (p.1, score p.2)) ≠ [] := by rw [hm]; simp
      rw [Ne, List.map_eq_nil_iff, List.filter_eq_nil_iff] at hne
      push_neg at hne
      obtain ⟨p, hp, hload⟩ := hne
      simp only [decide_eq_true_eq] at hload
      exact h p hp hload

/-- When the selector picks an agent, that agent is a registered candidate
under the load threshold whose score dominates every candidate. -/
theorem select_some_spec (reg : List (String × AgentMetrics)) (a : String)
    (h : select_optimal_agent reg = some a) :
    ∃ m, (a, m) ∈ reg ∧ m.current_load < loadThreshold ∧
      ∀ p ∈ reg, p.2.current_load < loadThreshold → score p.2 ≤ score m := by
  unfold select_optimal_agent at h
  rcases hm : (reg.filter
      (fun p => p.2.current_load < loadThreshold)).map
      (fun p => (p.1, score p.2)) with _ | ⟨c, cs⟩ <;> rw [hm] at h
  · exact absurd h (by simp)
  · simp only [Option.some.injEq] at h
    have hmem : maxByScore c cs ∈ c :: cs := by
      rcases maxByScore_mem c cs with h1 | h1
      · rw [h1]; exact List.mem_cons_self c cs
      · exact List.mem_cons_of_mem c h1
    rw [← hm] at hmem
    rw [List.mem_map] at hmem
    obtain ⟨q, hq, hqe⟩ := hmem
    rw [List.mem_filter] at hq
    obtain ⟨hqreg, hqload⟩ := hq
    simp only [decide_eq_true_eq] at hqload
    refine ⟨q.2, ?_, hqload, ?_⟩
    · have h1 : q.1 = (maxByScore c cs).1 := congrArg Prod.fst hqe
      have : (a, q.2) = q := by
        rw [← h, ← h1]
      rw [this]; exact hqreg
    · intro p hpreg hpload
      have hpc : (p.1, score p.2) ∈ c :: cs := by
        rw [← hm, List.mem_map]
        exact ⟨p, List.mem_filter.mpr ⟨hpreg, by simpa using hpload⟩, rfl⟩
      have hscore : (maxByScore c cs).2 = score q.2 := by
        rw [← hqe]
      obtain ⟨hc1, hc2⟩ := maxByScore_ge c cs
      rcases List.mem_cons.mp hpc with heq | hmem2
      · have : score p.2 = c.2 := by rw [← heq]
        rw [this, ← hscore]; exact hc1
      · have := hc2 _ hmem2
        rw [hscore] at this
        exact this

/-- C5: the agent selector considers exactly the workers whose current load
is below the 0.8 threshold, scores each candidate as
`0.4*success_rate + 0.4*(1 - current_load) + 0.2*(1/(avg_response_time+1))`,
and returns a highest-scoring candidate (or `none` when no worker is below
the threshold); in the spec scenario with W1 at load 0, success 1.0,
latency 0 and W2 at load 0.9, it chooses W1. -/
theorem select_optimal_agent_spec :
    (∀ reg : List (String × AgentMetrics),
      (select_optimal_agent reg = none ↔
        ∀ p ∈ reg, ¬ p.2.current_load < loadThreshold) ∧
      (∀ a, select_optimal_agent reg = some a →
        ∃ m, (a, m) ∈ reg ∧ m.current_load < loadThreshold ∧
          score m = m.success_rate * (4/10) + (1 - m.current_load) * (4/10) +
            (1 / (m.avg_response_time + 1)) * (2/10) ∧
          ∀ p ∈ reg, p.2.current_load < loadThreshold →
            score p.2 ≤ score m)) ∧
    loadThreshold = 8/10 ∧
    select_optimal_agent regW12 = some "W1" := by
  refine ⟨fun reg => ⟨select_eq_none_iff reg, fun a h => ?_⟩, rfl, ?_⟩
  · obtain ⟨m, h1, h2, h3⟩ := select_some_spec reg a h
    exact ⟨m, h1, h2, rfl, h3⟩
  · with_unfolding_all rfl

/-- Witness for C5 at the spec's two-worker scenario. -/
theorem select_optimal_agent_spec_witness :
    ∃ m, ("W1", m) ∈ regW12 ∧ m.current_load < loadThreshold ∧
      score m = m.success_rate * (4/10) + (1 - m.current_load) * (4/10) +
        (1 / (m.avg_response_time + 1)) * (2/10) ∧
      ∀ p ∈ regW12, p.2.current_load < loadThreshold →
        score p.2 ≤ score m :=
  (select_optimal_agent_spec.1 regW12).2 "W1" select_optimal_agent_spec.2.2

/-- C6: each dispatch updates `success_rate` to
`success_rate*0.9 + (1 if success else 0)*0.1`, updates `avg_response_time`
to `avg_response_time*0.9 + elapsed*0.1` only on success, and a freshly
registered worker (seeded at success rate 1.0) has success rate exactly 1
after one successful dispatch and exactly 0.9 after one failed dispatch. -/
theorem agent_metrics_ewma_update :
    (∀ (m : AgentMetrics) (tm : ℚ),
      (update_metrics_value m true tm).success_rate =
        m.success_rate * (9/10) + 1 * (1/10) ∧
      (update_metrics_value m false tm).success_rate =
        m.success_rate * (9/10) + 0 * (1/10) ∧
      (update_metrics_value m true tm).avg_response_time =
        m.avg_response_time * (9/10) + tm * (1/10) ∧
      (update_metrics_value m false tm).avg_response_time =
        m.avg_response_time) ∧
    (∀ (reg : List (String × AgentMetrics)) (aid : String)
      (caps : List String) (n0 : Nat) (tm : ℚ),
      ((register_agent reg aid caps n0).lookup aid).map
        (fun m1 => ((update_metrics_value m1 true tm).success_rate,
          (update_metrics_value m1 false tm).success_rate)) =
        some (1, 9/10)) := by
  constructor
  · intro m tm
    refine ⟨by simp [update_metrics_value], by simp [update_metrics_value],
      by simp [update_metrics_value], by simp [update_metrics_value]⟩
  · intro reg aid caps n0 tm
    rw [register_agent, lookup_setEntry_self]
    simp only [Option.map_some, update_metrics_value]
    norm_num

/-- C10: `get_task_status` raises `ValueError` exactly for ids absent from
the Task Store, and for present ids reports the task's current fields. It
takes the store by value and returns only a report, so no store is
modified. -/
theorem get_task_status_spec :
    ∀ (tasks : List (String × Task)) (tid : String),
      (tasks.lookup tid = none →
        get_task_status tasks tid =
          .error ("Task " ++ tid ++ " not found")) ∧
      (∀ t, tasks.lookup tid = some t →
        get_task_status tasks tid = .ok
          { id := t.id
            name := t.name
            status := t.status.value
            assigned_agent := t.assigned_agent
            retry_count := t.retry_count
            created_at := t.created_at
            updated_at := t.updated_at
            error := t.error }) ∧
      ((∃ v, get_task_status tasks tid = .ok v) ↔
        (∃ t, tasks.lookup tid = some t)) := by
  intro tasks tid
  rcases h : tasks.lookup tid with _ | t
  · refine ⟨fun _ => by simp [get_task_status, h], fun t ht => ?_, ?_⟩
    · exact absurd ht (by simp)
    · simp [get_task_status, h]
  · refine ⟨fun hn => absurd hn (by simp), fun t2 ht2 => ?_, ?_⟩
    · injection ht2 with ht2
      subst ht2
      simp [get_task_status, h]
    · simp [get_task_status, h]

/-- Witness for C10: a missing id raises, a present id reports its
fields. -/
theorem get_task_status_spec_witness :
    get_task_status exStateDep.tasks "missing" =
      .error ("Task " ++ "missing" ++ " not found") ∧
    get_task_status exStateDep.tasks "task_0" = .ok
      { id := "task_0"
        name := "t1"
        status := "pending"
        assigned_agent := none
        retry_count := 0
        created_at := 0
        updated_at := 0
        error := none } :=
  ⟨(get_task_status_spec exStateDep.tasks "missing").1 (by decide),
    (get_task_status_spec exStateDep.tasks "task_0").2.1
      (mkTask "task_0" "t1" []) (by decide)⟩

/-- C9 evaluated at its failing input: with no registered agent and a fresh
task, the selector-exhaustion `CollaborationError` is caught, `retry_count`
becomes 1 and the status RETRYING, but the metrics update
`self.agent_metrics[task.assigned_agent]` is evaluated with `None` and its
`KeyError` escapes the retry loop: no backoff is slept and no further
attempt occurs, contradicting the claim that selector exhaustion is retried
like a worker error up to `max_retries`. -/
theorem selector_exhaustion_escapes_without_retry :
    execute_task exRunsFail [] "task_0" exStateNoAgents [] =
      (.error ExecErr.keyErr,
        { exStateNoAgents with tasks := [("task_0",
          { mkTask "task_0" "t" [] with
            retry_count := 1
            status := TaskStatus.retrying
            error := some "No suitable agent available" })] },
        [Event.fail "task_0" 1]) := by
  with_unfolding_all decide

/-- C2: whenever the working set is non-empty but every task in it has some
dependency still in the working set (so no task is ready), `execute_workflow`
raises `CollaborationError("Circular dependency detected in workflow")` and
returns no partial result mapping; the fuel bound `pending.length ≤ fuel` is
the discipline `execute_workflow` itself establishes. -/
theorem circular_dependency_aborts :
    ∀ (runsFor : String → Nat → RunOutcome) (fuel : Nat) (st : WorkState)
      (log : List Event) (results : List (String × Option String))
      (pending : List String),
      pending ≠ [] → pending.length ≤ fuel →
      (∀ tid ∈ pending, ((st.tasks.lookup tid).map
        (fun t => t.dependencies.any (fun d => pending.contains d))) =
          some true) →
      executeWorkflowLoop runsFor fuel st log results pending =
        (.error (WfErr.collab "Circular dependency detected in workflow"),
          st, log) := by
  intro runsFor fuel st log results pending hne hlen hcyc
  match fuel, pending, hne with
  | 0, tid0 :: rest, _ => exact absurd hlen (by simp)
  | fuel + 1, tid0 :: rest, _ =>
    have hall : ((tid0 :: rest).all
        (fun tid => (st.tasks.lookup tid).isSome)) = true := by
      rw [List.all_eq_true]
      intro tid htid
      have hc := hcyc tid htid
      rcases hL : st.tasks.lookup tid with _ | t
      · rw [hL] at hc; exact absurd hc (by simp)
      · rfl
    have hready : readySet st.tasks (tid0 :: rest) = [] := by
      rw [readySet, List.filter_eq_nil_iff]
      intro tid htid
      have hc := hcyc tid htid
      rcases hL : st.tasks.lookup tid with _ | t
      · rw [hL] at hc; exact absurd hc (by simp)
      · rw [hL] at hc
        injection hc with hc
        intro hall2
        simp only [List.all_eq_true] at hall2
        rw [List.any_eq_true] at hc
        obtain ⟨d, hd, hdc⟩ := hc
        have hbad := hall2 d hd
        rw [hdc] at hbad
        exact absurd hbad (by simp)
    simp only [executeWorkflowLoop, hall, hready, if_true, reduceIte]

/-- Witness for C2: the spec's two mutually dependent tasks abort the run
with the circular-dependency error and no results. -/
theorem circular_dependency_aborts_witness :
    execute_workflow (fun _ => exRunsFail) exStateCycle
        ["task_0", "task_1"] =
      (.error (WfErr.collab "Circular dependency detected in workflow"),
        exStateCycle, []) :=
  circular_dependency_aborts (fun _ => exRunsFail) 2 exStateCycle [] []
    ["task_0", "task_1"] (by decide) (by decide) (by decide)

/-- C7: `query_shared_knowledge` returns at most `k` entries, each a stored
entry containing at least one whitespace query token as a case-insensitive
substring, ordered by timestamp descending; an empty (or all-whitespace)
query or an absence of matches gives the empty list; every matching entry
left out is no more recent than every returned one (the result is the `k`
most recent matches); and a token matching exactly one entry returns that
entry first. -/
theorem query_shared_knowledge_spec :
    ∀ (store : List KnowledgeEntry) (q : String) (k : Nat),
      (splitWS q.data = [] → query_shared_knowledge store q k = []) ∧
      ((∀ e ∈ store, entry_matches q e = false) →
        query_shared_knowledge store q k = []) ∧
      (∀ e ∈ query_shared_knowledge store q k,
        e ∈ store ∧ entry_matches q e = true) ∧
      (query_shared_knowledge store q k).length ≤ k ∧
      (query_shared_knowledge store q k).Pairwise tsDesc ∧
      (∀ e ∈ store, entry_matches q e = true →
        e ∉ query_shared_knowledge store q k →
        (query_shared_knowledge store q k).length = k ∧
        ∀ x ∈ query_shared_knowledge store q k, tsDesc x e) ∧
      (1 ≤ k → ∀ e, store.filter (entry_matches q) = [e] →
        query_shared_knowledge store q k = [e]) := by
  intro store q k
  set S := (store.filter (entry_matches q)).insertionSort tsDesc with hS
  have hout : query_shared_knowledge store q k = S.take k := rfl
  have hperm : S.Perm (store.filter (entry_matches q)) :=
    List.perm_insertionSort tsDesc _
  have hsorted : S.Pairwise tsDesc := List.sorted_insertionSort tsDesc _
  refine ⟨?_, ?_, ?_, ?_, ?_, ?_, ?_⟩
  · intro hq
    have hfil : store.filter (entry_matches q) = [] := by
      rw [List.filter_eq_nil_iff]
      intro e _
      simp [entry_matches, hq]
    rw [hout]
    have : S = [] := List.Perm.eq_nil (hfil ▸ hperm)
    rw [this, List.take_nil]
  · intro hm
    have hfil : store.filter (entry_matches q) = [] := by
      rw [List.filter_eq_nil_iff]
      intro e he
      simp [hm e he]
    rw [hout]
    have : S = [] := List.Perm.eq_nil (hfil ▸ hperm)
    rw [this, List.take_nil]
  · intro e he
    rw [hout] at he
    have heS : e ∈ S := List.take_subset k S he
    have := hperm.mem_iff.mp heS
    exact List.mem_filter.mp this
  · rw [hout, List.length_take]
    exact min_le_left _ _
  · rw [hout]
    exact hsorted.sublist (List.take_sublist k S)
  · intro e he hmatch hnot
    rw [hout] at hnot ⊢
    have heS : e ∈ S := hperm.mem_iff.mpr (List.mem_filter.mpr ⟨he, hmatch⟩)
    have hklt : k < S.length := by
      by_contra hk
      push_neg at hk
      rw [List.take_of_length_le hk] at hnot
      exact hnot heS
    constructor
    · rw [List.length_take]
      omega
    · intro x hx
      have hsplit := List.take_append_drop k S
      have hpw := hsplit ▸ hsorted
      rw [List.pairwise_append] at hpw
      have hedrop : e ∈ S.drop k := by
        rcases (List.mem_append.mp (hsplit ▸ heS)) with h1 | h1
        · exact absurd h1 hnot
        · exact h1
      exact hpw.2.2 x hx e hedrop
  · intro hk e hfil
    rw [hout, hS, hfil]
    match k, hk with
    | k + 1, _ =>
      simp [List.insertionSort, List.orderedInsert]

/-- Witness for C7: a token contained (case-insensitively) in exactly one
entry returns that entry first; the empty query returns nothing. -/
theorem query_shared_knowledge_spec_witness :
    query_shared_knowledge exKStore "hello" 5 =
      [{ agent_id := "a1", content := "Hello World", timestamp := 1 }] ∧
    query_shared_knowledge exKStore "" 5 = [] :=
  ⟨(query_shared_knowledge_spec exKStore "hello" 5).2.2.2.2.2.2 (by decide)
      { agent_id := "a1", content := "Hello World", timestamp := 1 }
      (by decide),
    (query_shared_knowledge_spec exKStore "" 5).1 (by decide)⟩

/-- Stamping `last_active` changes no agent's load. -/
theorem eligible_touchLastActive (reg : List (String × AgentMetrics))
    (a : String) (n : Nat)
    (h : ∃ p ∈ reg, p.2.current_load < loadThreshold) :
    ∃ p ∈ touchLastActive reg a n, p.2.current_load < loadThreshold := by
  obtain ⟨p, hp, hl⟩ := h
  refine ⟨if p.1 = a then (a, { p.2 with last_active := n }) else p,
    List.mem_map_of_mem _ hp, ?_⟩
  by_cases hpa : p.1 = a <;> simp [hpa, hl]

/-- Stamping `last_active` keeps every registered key. -/
theorem key_touchLastActive (reg : List (String × AgentMetrics))
    (a b : String) (n : Nat) (m : AgentMetrics) (h : (b, m) ∈ reg) :
    (touchLastActive reg a n).any (fun p => p.1 = b) = true := by
  rw [List.any_eq_true]
  refine ⟨if (b, m).1 = a then (a, { (b, m).2 with last_active := n })
    else (b, m), List.mem_map_of_mem _ h, ?_⟩
  by_cases hba : b = a <;> simp [hba]

/-- The registry form of a failure-path metrics update on a registered
agent. -/
theorem update_fail_ok_form (reg : List (String × AgentMetrics)) (a : String)
    (h : reg.any (fun p => p.1 = a) = true) :
    update_agent_metrics reg (some a) false 0 =
      .ok (reg.map (fun p =>
        if p.1 = a then (a, update_metrics_value p.2 false 0) else p)) := by
  simp [update_agent_metrics, h]

/-- A failure-path metrics update changes no agent's load. -/
theorem eligible_update_fail (reg : List (String × AgentMetrics)) (a : String)
    (h : ∃ p ∈ reg, p.2.current_load < loadThreshold) :
    ∃ p ∈ reg.map (fun p =>
        if p.1 = a then (a, update_metrics_value p.2 false 0) else p),
      p.2.current_load < loadThreshold := by
  obtain ⟨p, hp, hl⟩ := h
  refine ⟨if p.1 = a then (a, update_metrics_value p.2 false 0) else p,
    List.mem_map_of_mem _ hp, ?_⟩
  by_cases hpa : p.1 = a <;> simp [hpa, update_metrics_value, hl]

/-- An eligible agent forces the selector to return somebody. -/
theorem select_isSome_of_eligible (reg : List (String × AgentMetrics))
    (h : ∃ p ∈ reg, p.2.current_load < loadThreshold) :
    ∃ a, select_optimal_agent reg = some a := by
  cases hs : select_optimal_agent reg
  · rw [select_eq_none_iff] at hs
    obtain ⟨p, hp, hl⟩ := h
    exact absurd hl (hs p hp)
  · exact ⟨_, rfl⟩

/-- Core of C3: when every worker attempt raises and some agent stays under
the load threshold, the retry loop performs exactly one attempt per fuel
unit, each failure pushing the retry count up by exactly one (the `fail`
events read `retry_count + 1, ..., max_retries + 1`), sleeps a backoff
between attempts but not after the last, and ends FAILED with the last
error, re-raising it. -/
theorem executeTaskAttempts_allfail (msgs : Nat → String)
    (runs : Nat → RunOutcome)
    (hruns : ∀ n, runs n = RunOutcome.err (msgs n)) (gp : List String) :
    ∀ (fuel : Nat) (t : Task) (st : WorkState) (log : List Event),
      t.retry_count ≤ t.max_retries →
      t.retry_count + fuel = t.max_retries + 1 →
      (∃ p ∈ st.agent_metrics, p.2.current_load < loadThreshold) →
      ∃ t2 st2 suffix,
        executeTaskAttempts runs gp fuel t st log =
          (.error (ExecErr.worker (msgs t.max_retries)), t2, st2,
            log ++ suffix) ∧
        t2.retry_count = t.max_retries + 1 ∧
        t2.status = TaskStatus.failed ∧
        t2.error = some (msgs t.max_retries) ∧
        suffix.filterMap failRC = List.range' (t.retry_count + 1) fuel ∧
        suffix.countP isStartEv = fuel ∧
        suffix.countP isBackoffEv = fuel - 1 := by
  intro fuel
  induction fuel with
  | zero =>
    intro t st log hrc hcnt heli
    omega
  | succ k ih =>
    intro t st log hrc hcnt heli
    obtain ⟨a, ha⟩ := select_isSome_of_eligible _ heli
    obtain ⟨m, ham, _, _⟩ := select_some_spec _ _ ha
    have hany := key_touchLastActive st.agent_metrics a a (st.clock + 1) m ham
    have heli2 := eligible_update_fail _ a
      (eligible_touchLastActive st.agent_metrics a (st.clock + 1) heli)
    rcases Nat.eq_or_lt_of_le hrc with hmax | hlt
    · -- last allowed attempt: k = 0, the failure exhausts the retries
      have hk : k = 0 := by omega
      subst hk
      have hno : ¬ (t.retry_count + 1 ≤ t.max_retries) := by omega
      refine ⟨?_, ?_, [Event.start t.id t.dependencies
          (t.dependencies.map
            (fun d => ((st.tasks.lookup d).map Task.status))) gp,
        Event.fail t.id (t.retry_count + 1)], ?_, ?_, ?_, ?_, ?_, ?_, ?_⟩
      · exact { t with
          assigned_agent := some a
          status := TaskStatus.failed
          updated_at := st.clock
          retry_count := t.retry_count + 1
          error := some (msgs t.retry_count) }
      · exact { st with
          knowledge_docs := st.knowledge_docs
          agent_metrics := (touchLastActive st.agent_metrics a
              (st.clock + 1)).map (fun p =>
            if p.1 = a then (a, update_metrics_value p.2 false 0) else p)
          clock := st.clock + 2 }
      · simp only [executeTaskAttempts, if_pos hrc, ha]
        rw [hruns]
        simp only [if_neg hno]
        rw [update_fail_ok_form _ _ hany]
        rw [hmax]
        simp [ExecErr.str, List.append_assoc]
      · simp
        omega
      · simp [if_neg hno]
      · rw [hmax]
      · simp [failRC, List.range'_succ, hmax]
      · simp [isStartEv]
      · simp [isBackoffEv]
    · -- the failure leaves a retry budget: recurse after the backoff
      have hyes : t.retry_count + 1 ≤ t.max_retries := by omega
      have hk : 1 ≤ k := by omega
      have hrec := ih
        { t with
          assigned_agent := some a
          status := TaskStatus.retrying
          updated_at := st.clock
          retry_count := t.retry_count + 1
          error := some (msgs t.retry_count) }
        { st with
          agent_metrics := (touchLastActive st.agent_metrics a
              (st.clock + 1)).map (fun p =>
            if p.1 = a then (a, update_metrics_value p.2 false 0) else p)
          clock := st.clock + 1 + 1 }
        (((log ++ [Event.start t.id t.dependencies
              (t.dependencies.map
                (fun d => ((st.tasks.lookup d).map Task.status))) gp]) ++
          [Event.fail t.id (t.retry_count + 1)]) ++
          [Event.backoff t.id (2 ^ (t.retry_count + 1))])
        (show t.retry_count + 1 ≤ t.max_retries from hyes)
        (show t.retry_count + 1 + k = t.max_retries + 1 by omega) heli2
      obtain ⟨t3, st4, suffix, heq, h1, h2, h3, h4, h5, h6⟩ := hrec
      refine ⟨t3, st4, Event.start t.id t.dependencies
          (t.dependencies.map
            (fun d => ((st.tasks.lookup d).map Task.status))) gp ::
        Event.fail t.id (t.retry_count + 1) ::
        Event.backoff t.id (2 ^ (t.retry_count + 1)) :: suffix,
        ?_, ?_, ?_, ?_, ?_, ?_, ?_⟩
      · simp only [executeTaskAttempts, if_pos hrc, ha, hruns, if_pos hyes,
          ExecErr.str, update_fail_ok_form _ _ hany, reduceIte]
        rw [heq]
        simp [List.append_assoc]
      · exact h1
      · exact h2
      · exact h3
      · simp only [List.filterMap_cons, failRC]
        rw [h4, List.range'_succ]
      · simp only [List.countP_cons, isStartEv, isBackoffEv]
        rw [h5]
        simp [isStartEv, isBackoffEv]
      · simp only [List.countP_cons, isStartEv, isBackoffEv]
        rw [h6]
        simp [isStartEv, isBackoffEv]
        omega

/-- C3: with a worker that fails every attempt and an eligible agent
available, the retry loop of `_execute_task` on a fresh task increments the
retry count by exactly 1 per failed attempt (the logged fail events read
`1, 2, ..., max_retries + 1` in order), and after `max_retries + 1` failed
attempts the task's status is FAILED, the last error is re-raised, and no
further attempt occurs: exactly `max_retries + 1` dispatches are logged,
with a backoff after each failure except the terminal one. -/
theorem retry_count_exhaustion_spec :
    ∀ (msgs : Nat → String) (runs : Nat → RunOutcome),
      (∀ n, runs n = RunOutcome.err (msgs n)) →
      ∀ (gp : List String) (t : Task) (st : WorkState),
        t.retry_count = 0 →
        (∃ p ∈ st.agent_metrics, p.2.current_load < loadThreshold) →
        ∃ t2 st2 suffix,
          executeTaskAttempts runs gp (t.max_retries + 1 - t.retry_count)
              t st [] =
            (.error (ExecErr.worker (msgs t.max_retries)), t2, st2,
              suffix) ∧
          t2.retry_count = t.max_retries + 1 ∧
          t2.status = TaskStatus.failed ∧
          t2.error = some (msgs t.max_retries) ∧
          suffix.filterMap failRC = List.range' 1 (t.max_retries + 1) ∧
          suffix.countP isStartEv = t.max_retries + 1 ∧
          suffix.countP isBackoffEv = t.max_retries := by
  intro msgs runs hruns gp t st h0 heli
  obtain ⟨t2, st2, suffix, heq, h1, h2, h3, h4, h5, h6⟩ :=
    executeTaskAttempts_allfail msgs runs hruns gp
      (t.max_retries + 1 - t.retry_count) t st [] (by omega) (by omega) heli
  refine ⟨t2, st2, suffix, ?_, h1, h2, h3, ?_, ?_, ?_⟩
  · rw [heq]
    simp
  · rw [h4, h0]
    norm_num
  · rw [h5, h0]
    omega
  · rw [h6, h0]
    omega

/-- Witness for C3: a fresh task (`max_retries = 3`) against an
always-failing worker makes exactly 4 attempts, with fail events
`1, 2, 3, 4`, ends FAILED, and sleeps 3 backoffs. -/
theorem retry_count_exhaustion_spec_witness :
    ∃ t2 st2 suffix,
      executeTaskAttempts exRunsFail []
          ((mkTask "task_0" "t" []).max_retries + 1 -
            (mkTask "task_0" "t" []).retry_count)
          (mkTask "task_0" "t" []) exStateDep [] =
        (.error (ExecErr.worker "boom"), t2, st2, suffix) ∧
      t2.retry_count = (mkTask "task_0" "t" []).max_retries + 1 ∧
      t2.status = TaskStatus.failed ∧
      t2.error = some "boom" ∧
      suffix.filterMap failRC =
        List.range' 1 ((mkTask "task_0" "t" []).max_retries + 1) ∧
      suffix.countP isStartEv = (mkTask "task_0" "t" []).max_retries + 1 ∧
      suffix.countP isBackoffEv = (mkTask "task_0" "t" []).max_retries :=
  retry_count_exhaustion_spec (fun _ => "boom") exRunsFail (fun _ => rfl) []
    (mkTask "task_0" "t" []) exStateDep rfl
    ⟨("a1", freshAgent), List.mem_cons_self _ _,
      by norm_num [freshAgent, loadThreshold]⟩

/-- Erasing only elements different from the head leaves the head. -/
theorem cons_diff_of_forall_ne (a : String) :
    ∀ (s t : List String), (∀ b ∈ s, b ≠ a) →
      (a :: t).diff s = a :: t.diff s := by
  intro s
  induction s with
  | nil => intro t _; simp
  | cons b s2 ih =>
    intro t h
    have hba : b ≠ a := h b (List.mem_cons_self b s2)
    rw [List.diff_cons, List.diff_cons,
      List.erase_cons_tail (by simpa using Ne.symm hba)]
    exact ih (t.erase b) (fun x hx => h x (List.mem_cons_of_mem b hx))

/-- Removing one occurrence of each element the filter kept leaves exactly
the elements the filter rejected. -/
theorem diff_filter_eq (p : String → Bool) :
    ∀ l : List String, l.diff (l.filter p) = l.filter (fun x => !(p x)) := by
  intro l
  induction l with
  | nil => simp
  | cons a t ih =>
    by_cases hp : p a = true
    · rw [List.filter_cons_of_pos hp, List.filter_cons_of_neg (by simp [hp]),
        List.diff_cons, List.erase_cons_head, ih]
    · have hp2 : p a = false := by simpa using hp
      rw [List.filter_cons_of_neg hp, List.filter_cons_of_pos (by simp [hp2]),
        cons_diff_of_forall_ne a (t.filter p) t ?_, ih]
      intro b hb hba
      subst hba
      have := (List.mem_filter.mp hb).2
      rw [hp2] at this
      exact absurd this (by simp)

/-- The retry loop never touches the Task Store (the caller writes the task
back), and never changes the task's dependency list. -/
theorem executeTaskAttempts_inv (runs : Nat → RunOutcome) (gp : List String) :
    ∀ (fuel : Nat) (t : Task) (st : WorkState) (log : List Event),
      (executeTaskAttempts runs gp fuel t st log).2.2.1.tasks = st.tasks ∧
      (executeTaskAttempts runs gp fuel t st log).2.1.dependencies =
        t.dependencies := by
  intro fuel
  induction fuel with
  | zero => intro t st log; exact ⟨rfl, rfl⟩
  | succ k ih =>
    intro t st log
    simp only [executeTaskAttempts]
    repeat' split
    all_goals first
      | exact ⟨rfl, rfl⟩
      | exact ih _ _ _

/-- Membership in an appended log splits into old events and new events
already known sound. -/
theorem mem_append_or_ok (log suffix : List Event) (e : Event)
    (he : e ∈ log ++ suffix) (hs : ∀ x ∈ suffix, EventOk x) :
    e ∈ log ∨ EventOk e := by
  rcases List.mem_append.mp he with h | h
  · exact Or.inl h
  · exact Or.inr (hs e h)

/-- Every event the retry loop appends concerns this task: its `start`
events carry the task's dependency list and the working-set snapshot the
Executor passed, so they are sound whenever no dependency is in that
snapshot. -/
theorem executeTaskAttempts_events (runs : Nat → RunOutcome)
    (gp : List String) :
    ∀ (fuel : Nat) (t : Task) (st : WorkState) (log : List Event),
      (∀ d ∈ t.dependencies, d ∉ gp) →
      ∀ e ∈ (executeTaskAttempts runs gp fuel t st log).2.2.2,
        e ∈ log ∨ EventOk e := by
  intro fuel
  induction fuel with
  | zero => intro t st log _ e he; exact Or.inl he
  | succ k ih =>
    intro t st log hdeps
    simp only [executeTaskAttempts]
    repeat' split
    all_goals intro e he
    all_goals first
      | exact Or.inl he
      | (refine (ih _ _ _ (by exact hdeps) e he).elim
           (fun h => ?_) Or.inr
         try simp only [List.append_assoc, List.singleton_append,
           List.cons_append, List.nil_append] at h
         refine mem_append_or_ok _ _ e h ?_
         simp [EventOk] <;> exact hdeps)
      | (try simp only [List.append_assoc, List.singleton_append,
           List.cons_append, List.nil_append] at he
         refine mem_append_or_ok _ _ e he ?_
         simp [EventOk] <;> exact hdeps)

/-- `_execute_task` rewrites only its own task's store entry. -/
theorem execute_task_tasks_ne (runs : Nat → RunOutcome) (gp : List String)
    (tid : String) (st : WorkState) (log : List Event) (k : String)
    (hk : k ≠ tid) :
    (execute_task runs gp tid st log).2.1.tasks.lookup k =
      st.tasks.lookup k := by
  unfold execute_task
  rcases hL : st.tasks.lookup tid with _ | t
  · rfl
  · simp only []
    rw [lookup_setEntry_ne _ _ _ _ hk,
      (executeTaskAttempts_inv runs gp _ t st log).1]

/-- `_execute_task` preserves every store key and every task's dependency
list. -/
theorem execute_task_lookup_facts (runs : Nat → RunOutcome)
    (gp : List String) (tid : String) (st : WorkState) (log : List Event)
    (k : String) :
    ((execute_task runs gp tid st log).2.1.tasks.lookup k).map
        Task.dependencies = (st.tasks.lookup k).map Task.dependencies ∧
      ((st.tasks.lookup k).isSome →
        ((execute_task runs gp tid st log).2.1.tasks.lookup k).isSome) := by
  by_cases hk : k = tid
  · subst hk
    unfold execute_task
    rcases hL : st.tasks.lookup k with _ | t
    · constructor
      · simp only []
        rw [hL]
      · intro h
        simp at h
    · constructor
      · simp only []
        rw [lookup_setEntry_self]
        simp only [Option.map_some']
        rw [(executeTaskAttempts_inv runs gp _ t st log).2]
      · intro _
        simp only []
        rw [lookup_setEntry_self]
        rfl
  · have hne := execute_task_tasks_ne runs gp tid st log k hk
    rw [hne]
    exact ⟨rfl, fun h => h⟩

/-- The events `_execute_task` appends are sound when the stored task's
dependencies avoid the working-set snapshot. -/
theorem execute_task_events (runs : Nat → RunOutcome) (gp : List String)
    (tid : String) (st : WorkState) (log : List Event)
    (hdeps : ∀ t, st.tasks.lookup tid = some t →
      ∀ d ∈ t.dependencies, d ∉ gp) :
    ∀ e ∈ (execute_task runs gp tid st log).2.2, e ∈ log ∨ EventOk e := by
  unfold execute_task
  rcases hL : st.tasks.lookup tid with _ | t
  · intro e he
    exact Or.inl he
  · intro e he
    exact executeTaskAttempts_events runs gp _ t st log (hdeps t hL) e he

/-- The serialised gather dispatches exactly the ready list, in order. -/
theorem dispatchAll_fst (runsFor : String → Nat → RunOutcome)
    (gp : List String) :
    ∀ (ready : List String) (st : WorkState) (log : List Event),
      ((dispatchAll runsFor ready gp st log).2.2).map Prod.fst = ready := by
  intro ready
  induction ready with
  | nil => intro st log; rfl
  | cons tid rest ih =>
    intro st log
    simp only [dispatchAll, List.map_cons]
    rw [ih]

/-- The serialised gather preserves store keys and dependency lists, and
leaves tasks outside the ready list untouched. -/
theorem dispatchAll_tasks (runsFor : String → Nat → RunOutcome)
    (gp : List String) :
    ∀ (ready : List String) (st : WorkState) (log : List Event)
      (k : String),
      (((dispatchAll runsFor ready gp st log).1.tasks.lookup k).map
          Task.dependencies = (st.tasks.lookup k).map Task.dependencies) ∧
      ((st.tasks.lookup k).isSome →
        ((dispatchAll runsFor ready gp st log).1.tasks.lookup k).isSome) ∧
      (k ∉ ready →
        (dispatchAll runsFor ready gp st log).1.tasks.lookup k =
          st.tasks.lookup k) := by
  intro ready
  induction ready with
  | nil => intro st log k; exact ⟨rfl, fun h => h, fun _ => rfl⟩
  | cons tid rest ih =>
    intro st log k
    simp only [dispatchAll]
    obtain ⟨hdeps, hsome, hne⟩ := ih
      (execute_task (runsFor tid) gp tid st log).2.1
      (execute_task (runsFor tid) gp tid st log).2.2 k
    obtain ⟨hdeps0, hsome0⟩ :=
      execute_task_lookup_facts (runsFor tid) gp tid st log k
    refine ⟨?_, ?_, ?_⟩
    · rw [hdeps, hdeps0]
    · intro h
      exact hsome (hsome0 h)
    · intro hk
      have hk1 : k ≠ tid := fun h => hk (h ▸ List.mem_cons_self tid rest)
      have hk2 : k ∉ rest := fun h => hk (List.mem_cons_of_mem tid h)
      rw [hne hk2, execute_task_tasks_ne (runsFor tid) gp tid st log k hk1]

/-- Every event a round's dispatch adds to a sound log is sound, as long as
every ready task's stored dependencies avoid the working-set snapshot. -/
theorem dispatchAll_events (runsFor : String → Nat → RunOutcome)
    (gp : List String) :
    ∀ (ready : List String) (st : WorkState) (log : List Event),
      (∀ tid ∈ ready, ∀ t, st.tasks.lookup tid = some t →
        ∀ d ∈ t.dependencies, d ∉ gp) →
      (∀ e ∈ log, EventOk e) →
      ∀ e ∈ (dispatchAll runsFor ready gp st log).2.1, EventOk e := by
  intro ready
  induction ready with
  | nil => intro st log _ hlog e he; exact hlog e he
  | cons tid rest ih =>
    intro st log hdeps hlog e he
    simp only [dispatchAll] at he
    refine ih (execute_task (runsFor tid) gp tid st log).2.1
      (execute_task (runsFor tid) gp tid st log).2.2 ?_ ?_ e he
    · intro tid2 h2 t ht
      have hpres := (execute_task_lookup_facts (runsFor tid) gp tid st log
        tid2).1
      rw [ht] at hpres
      rcases hL2 : st.tasks.lookup tid2 with _ | t0
      · rw [hL2] at hpres
        exact absurd hpres (by simp)
      · rw [hL2] at hpres
        simp only [Option.map_some', Option.some.injEq] at hpres
        rw [hpres]
        exact hdeps tid2 (List.mem_cons_of_mem tid h2) t0 hL2
    · intro e2 he2
      rcases execute_task_events (runsFor tid) gp tid st log
          (fun t ht => hdeps tid (List.mem_cons_self tid rest) t ht)
          e2 he2 with h | h
      · exact hlog e2 h
      · exact h

/-- The zip loop leaves tasks and results outside the pair list untouched. -/
theorem processCompleted_ne :
    ∀ (pairs : List (String × Except ExecErr (Option String)))
      (st : WorkState) (results : List (String × Option String))
      (k : String), k ∉ pairs.map Prod.fst →
      (processCompleted pairs st results).1.tasks.lookup k =
          st.tasks.lookup k ∧
        (processCompleted pairs st results).2.lookup k =
          results.lookup k := by
  intro pairs
  induction pairs with
  | nil => intro st results k _; exact ⟨rfl, rfl⟩
  | cons p rest ih =>
    intro st results k hk
    obtain ⟨tid, out⟩ := p
    simp only [List.map_cons, List.mem_cons, not_or] at hk
    obtain ⟨hk1, hk2⟩ := hk
    cases out with
    | error e =>
      simp only [processCompleted]
      rcases hL : st.tasks.lookup tid with _ | t
      · exact ih st results k hk2
      · obtain ⟨h1, h2⟩ := ih _ results k hk2
        refine ⟨?_, h2⟩
        rw [h1]
        exact lookup_setEntry_ne _ _ _ _ hk1
    | ok v =>
      simp only [processCompleted]
      obtain ⟨h1, h2⟩ := ih st _ k hk2
      refine ⟨h1, ?_⟩
      rw [h2]
      exact lookup_setEntry_ne _ _ _ _ hk1

/-- The zip loop preserves store keys and dependency lists (a FAILED mark
changes only status and error). -/
theorem processCompleted_pres :
    ∀ (pairs : List (String × Except ExecErr (Option String)))
      (st : WorkState) (results : List (String × Option String))
      (k : String),
      (((processCompleted pairs st results).1.tasks.lookup k).map
          Task.dependencies = (st.tasks.lookup k).map Task.dependencies) ∧
      ((st.tasks.lookup k).isSome →
        ((processCompleted pairs st results).1.tasks.lookup k).isSome) := by
  intro pairs
  induction pairs with
  | nil => intro st results k; exact ⟨rfl, fun h => h⟩
  | cons p rest ih =>
    intro st results k
    obtain ⟨tid, out⟩ := p
    cases out with
    | error e =>
      simp only [processCompleted]
      rcases hL : st.tasks.lookup tid with _ | t
      · exact ih st results k
      · obtain ⟨h1, h2⟩ := ih { st with tasks := setEntry st.tasks tid ({ t with status := TaskStatus.failed, error := some e.str }) } results k
        by_cases hk : k = tid
        · subst hk
          constructor
          · rw [h1]
            simp only []
            rw [lookup_setEntry_self, hL]
            rfl
          · intro _
            apply h2
            simp only []
            rw [lookup_setEntry_self]
            rfl
        · constructor
          · rw [h1]
            simp only []
            rw [lookup_setEntry_ne _ _ _ _ hk]
          · intro hs
            apply h2
            simp only []
            rw [lookup_setEntry_ne _ _ _ _ hk]
            exact hs
    | ok v =>
      simp only [processCompleted]
      exact ih st _ k

/-- A captured per-task exception marks that task FAILED with its message
recorded, and adds nothing for it to the results dict. -/
theorem processCompleted_error_mark :
    ∀ (pairs : List (String × Except ExecErr (Option String)))
      (st : WorkState) (results : List (String × Option String))
      (tid : String) (e : ExecErr),
      (pairs.map Prod.fst).Nodup → (tid, Except.error e) ∈ pairs →
      (st.tasks.lookup tid).isSome →
      (∃ t0, (processCompleted pairs st results).1.tasks.lookup tid =
          some t0 ∧ t0.status = TaskStatus.failed ∧
          t0.error = some e.str) ∧
        (processCompleted pairs st results).2.lookup tid =
          results.lookup tid := by
  intro pairs
  induction pairs with
  | nil => intro st results tid e _ hmem; exact absurd hmem (by simp)
  | cons p rest ih =>
    intro st results tid e hnd hmem hsome
    obtain ⟨tid1, out1⟩ := p
    simp only [List.map_cons, List.nodup_cons] at hnd
    obtain ⟨hnd1, hnd2⟩ := hnd
    rcases List.mem_cons.mp hmem with heq | hmem2
    · injection heq with he1 he2
      subst he1
      subst he2
      simp only [processCompleted]
      rcases hL : st.tasks.lookup tid with _ | t
      · rw [hL] at hsome
        exact absurd hsome (by simp)
      · obtain ⟨h1, h2⟩ := processCompleted_ne rest { st with tasks := setEntry st.tasks tid ({ t with status := TaskStatus.failed, error := some e.str }) } results tid hnd1
        refine ⟨⟨({ t with status := TaskStatus.failed, error := some e.str }), ?_, rfl, rfl⟩, h2⟩
        rw [h1]
        simp only []
        rw [lookup_setEntry_self]
    · have htid1 : tid ≠ tid1 := by
        intro h
        subst h
        exact hnd1 (List.mem_map_of_mem Prod.fst hmem2)
      cases out1 with
      | error e1 =>
        simp only [processCompleted]
        rcases hL : st.tasks.lookup tid1 with _ | t1
        · exact ih st results tid e hnd2 hmem2 hsome
        · refine ih _ results tid e hnd2 hmem2 ?_
          simp only []
          rw [lookup_setEntry_ne _ _ _ _ htid1]
          exact hsome
      | ok v =>
        simp only [processCompleted]
        obtain ⟨ha, hb⟩ := ih st (setEntry results tid1 v) tid e hnd2
          hmem2 hsome
        refine ⟨ha, ?_⟩
        rw [hb, lookup_setEntry_ne _ _ _ _ htid1]

/-- A returned per-task payload is recorded in the results dict. -/
theorem processCompleted_ok_mark :
    ∀ (pairs : List (String × Except ExecErr (Option String)))
      (st : WorkState) (results : List (String × Option String))
      (tid : String) (v : Option String),
      (pairs.map Prod.fst).Nodup → (tid, Except.ok v) ∈ pairs →
      (processCompleted pairs st results).2.lookup tid = some v := by
  intro pairs
  induction pairs with
  | nil => intro st results tid v _ hmem; exact absurd hmem (by simp)
  | cons p rest ih =>
    intro st results tid v hnd hmem
    obtain ⟨tid1, out1⟩ := p
    simp only [List.map_cons, List.nodup_cons] at hnd
    obtain ⟨hnd1, hnd2⟩ := hnd
    rcases List.mem_cons.mp hmem with heq | hmem2
    · injection heq with he1 he2
      subst he1
      subst he2
      simp only [processCompleted]
      have h2 := (processCompleted_ne rest st (setEntry results tid v)
        tid hnd1).2
      rw [h2, lookup_setEntry_self]
    · cases out1 with
      | error e1 =>
        simp only [processCompleted]
        rcases hL : st.tasks.lookup tid1 with _ | t1
        · exact ih st results tid v hnd2 hmem2
        · exact ih _ results tid v hnd2 hmem2
      | ok v1 =>
        simp only [processCompleted]
        exact ih st _ tid v hnd2 hmem2

/-- When no task is ready, every working-set task has a dependency still in
the working set. -/
theorem no_ready_step (tasks : List (String × Task)) (pending : List String)
    (hpres : ∀ u ∈ pending, (tasks.lookup u).isSome)
    (hready : readySet tasks pending = []) :
    ∀ u ∈ pending, ∃ t, tasks.lookup u = some t ∧
      ∃ d ∈ t.dependencies, d ∈ pending := by
  intro u hu
  have hpred := List.filter_eq_nil_iff.mp hready u hu
  rcases hL : tasks.lookup u with _ | t
  · have := hpres u hu
    rw [hL] at this
    exact absurd this (by simp)
  · refine ⟨t, rfl, ?_⟩
    rw [hL] at hpred
    simp only [List.all_eq_true, not_forall] at hpred
    obtain ⟨d, hd, hdc⟩ := hpred
    refine ⟨d, hd, ?_⟩
    have hc : pending.contains d = true := by
      revert hdc
      cases pending.contains d <;> simp
    exact List.elem_iff.mp hc

/-- With a rank function that strictly decreases along dependencies inside
the working set, some task is always ready. -/
theorem exists_ready_of_rank (f : String → Nat) :
    ∀ (B : Nat) (tasks : List (String × Task)) (pending : List String)
      (tid : String),
      tid ∈ pending → f tid ≤ B →
      (∀ u ∈ pending, (tasks.lookup u).isSome) →
      (∀ u ∈ pending, ∀ t, tasks.lookup u = some t →
        ∀ d ∈ t.dependencies, d ∈ pending → f d < f u) →
      readySet tasks pending ≠ [] := by
  intro B
  induction B with
  | zero =>
    intro tasks pending tid htid hB hpres hrank hready
    obtain ⟨t, hL, d, hd, hdp⟩ := no_ready_step tasks pending hpres hready
      tid htid
    have := hrank tid htid t hL d hd hdp
    omega
  | succ B ih =>
    intro tasks pending tid htid hB hpres hrank hready
    obtain ⟨t, hL, d, hd, hdp⟩ := no_ready_step tasks pending hpres hready
      tid htid
    have hlt := hrank tid htid t hL d hd hdp
    exact ih tasks pending d hdp (by omega) hpres hrank hready

/-- An element the filter kept is gone from the diff. -/
theorem not_mem_diff_filter (p : String → Bool) (l : List String)
    (x : String) (hx : x ∈ l.filter p) : x ∉ l.diff (l.filter p) := by
  rw [diff_filter_eq]
  intro hmem
  have h1 := (List.mem_filter.mp hx).2
  have h2 := (List.mem_filter.mp hmem).2
  rw [h1] at h2
  exact absurd h2 (by simp)

/-- An element the filter rejected stays in the diff. -/
theorem mem_diff_filter_of_not (p : String → Bool) (l : List String)
    (x : String) (hxl : x ∈ l) (hx : x ∉ l.filter p) :
    x ∈ l.diff (l.filter p) := by
  rw [diff_filter_eq]
  refine List.mem_filter.mpr ⟨hxl, ?_⟩
  cases hpx : p x
  · simp
  · exact absurd (List.mem_filter.mpr ⟨hxl, hpx⟩) hx

/-- Core of C1 (amended): with distinct working-set ids, all present in the
Task Store, and a rank function strictly decreasing along dependency edges
inside the working set, the loop returns `ok` with a results dict holding
every working-set task whose final status is COMPLETED, and leaves every
task outside the working set untouched. -/
theorem executeWorkflowLoop_completes (runsFor : String → Nat → RunOutcome)
    (f : String → Nat) :
    ∀ (fuel : Nat) (pending : List String) (st : WorkState)
      (log : List Event) (results : List (String × Option String)),
      pending.length ≤ fuel →
      pending.Nodup →
      (∀ tid ∈ pending, (st.tasks.lookup tid).isSome) →
      (∀ tid ∈ pending, ∀ t, st.tasks.lookup tid = some t →
        ∀ d ∈ t.dependencies, d ∈ pending → f d < f tid) →
      ∃ res st2 log2,
        executeWorkflowLoop runsFor fuel st log results pending =
          (.ok res, st2, log2) ∧
        (∀ tid ∈ pending,
          (st2.tasks.lookup tid).map Task.status =
              some TaskStatus.completed →
            (res.lookup tid).isSome) ∧
        (∀ k, k ∉ pending →
          st2.tasks.lookup k = st.tasks.lookup k ∧
            res.lookup k = results.lookup k) := by
  intro fuel
  induction fuel with
  | zero =>
    intro pending st log results hlen hnd hpres hrank
    match pending, hlen with
    | [], _ =>
      exact ⟨results, st, log, rfl, by simp, fun k _ => ⟨rfl, rfl⟩⟩
  | succ n ih =>
    intro pending st log results hlen hnd hpres hrank
    cases pending with
    | nil => exact ⟨results, st, log, rfl, by simp, fun k _ => ⟨rfl, rfl⟩⟩
    | cons p0 rest0 =>
      have hmem0 : p0 ∈ p0 :: rest0 := List.mem_cons_self _ _
      have hall : ((p0 :: rest0).all
          (fun tid => (st.tasks.lookup tid).isSome)) = true := by
        rw [List.all_eq_true]
        intro x hx
        exact hpres x hx
      have hrne : readySet st.tasks (p0 :: rest0) ≠ [] :=
        exists_ready_of_rank f (f p0) st.tasks (p0 :: rest0) p0 hmem0
          le_rfl hpres hrank
      have hsubR : ∀ x ∈ readySet st.tasks (p0 :: rest0), x ∈ p0 :: rest0 := by
        intro x hx
        simp only [readySet] at hx
        exact List.mem_of_mem_filter hx
      have hsubD : ∀ x ∈ (p0 :: rest0).diff (readySet st.tasks (p0 :: rest0)),
          x ∈ p0 :: rest0 :=
        fun x hx => (List.diff_sublist _ _).subset hx
      have houts_fst : ((dispatchAll runsFor (readySet st.tasks (p0 :: rest0))
          (p0 :: rest0) st log).2.2).map Prod.fst =
          readySet st.tasks (p0 :: rest0) :=
        dispatchAll_fst runsFor (p0 :: rest0) _ st log
      have hnodupouts : (((dispatchAll runsFor
          (readySet st.tasks (p0 :: rest0)) (p0 :: rest0) st
          log).2.2).map Prod.fst).Nodup := by
        rw [houts_fst]
        exact hnd.filter _
      have hlen2 : ((p0 :: rest0).diff
          (readySet st.tasks (p0 :: rest0))).length ≤ n := by
        obtain ⟨c, restR, hcR⟩ := List.exists_cons_of_ne_nil hrne
        have hcP : c ∈ p0 :: rest0 :=
          hsubR c (by rw [hcR]; exact List.mem_cons_self _ _)
        have h1 : ((p0 :: rest0).diff
            (readySet st.tasks (p0 :: rest0))).length ≤
            ((p0 :: rest0).erase c).length := by
          rw [hcR, List.diff_cons]
          exact (List.diff_sublist _ _).length_le
        have h2 := List.length_erase_of_mem hcP
        simp only [List.length_cons] at h1 h2 hlen ⊢
        omega
      have hnodup2 : ((p0 :: rest0).diff
          (readySet st.tasks (p0 :: rest0))).Nodup :=
        hnd.sublist (List.diff_sublist _ _)
      have hpres2 : ∀ tid ∈ (p0 :: rest0).diff
          (readySet st.tasks (p0 :: rest0)),
          (((processCompleted (dispatchAll runsFor
              (readySet st.tasks (p0 :: rest0)) (p0 :: rest0) st log).2.2
            (dispatchAll runsFor (readySet st.tasks (p0 :: rest0))
              (p0 :: rest0) st log).1
            results).1).tasks.lookup tid).isSome := by
        intro tid htid
        have h0 := hpres tid (hsubD tid htid)
        have h1 := (dispatchAll_tasks runsFor (p0 :: rest0)
          (readySet st.tasks (p0 :: rest0)) st log tid).2.1 h0
        exact (processCompleted_pres _ _ results tid).2 h1
      have hrank2 : ∀ tid ∈ (p0 :: rest0).diff
          (readySet st.tasks (p0 :: rest0)),
          ∀ t, (((processCompleted (dispatchAll runsFor
              (readySet st.tasks (p0 :: rest0)) (p0 :: rest0) st log).2.2
            (dispatchAll runsFor (readySet st.tasks (p0 :: rest0))
              (p0 :: rest0) st log).1
            results).1).tasks.lookup tid) = some t →
          ∀ d ∈ t.dependencies, d ∈ (p0 :: rest0).diff
            (readySet st.tasks (p0 :: rest0)) → f d < f tid := by
        intro tid htid t ht d hd hdp
        have hdeps1 := (processCompleted_pres (dispatchAll runsFor
          (readySet st.tasks (p0 :: rest0)) (p0 :: rest0) st log).2.2
          (dispatchAll runsFor (readySet st.tasks (p0 :: rest0))
            (p0 :: rest0) st log).1 results tid).1
        have hdeps2 := (dispatchAll_tasks runsFor (p0 :: rest0)
          (readySet st.tasks (p0 :: rest0)) st log tid).1
        rw [ht] at hdeps1
        rw [hdeps2] at hdeps1
        rcases hL0 : st.tasks.lookup tid with _ | t0
        · rw [hL0] at hdeps1
          exact absurd hdeps1 (by simp)
        · rw [hL0] at hdeps1
          simp only [Option.map_some', Option.some.injEq] at hdeps1
          refine hrank tid (hsubD tid htid) t0 hL0 d ?_ (hsubD d hdp)
          rw [← hdeps1]
          exact hd
      obtain ⟨res, st2, log2, heq, hcomp, hout⟩ := ih
        ((p0 :: rest0).diff (readySet st.tasks (p0 :: rest0)))
        ((processCompleted (dispatchAll runsFor
            (readySet st.tasks (p0 :: rest0)) (p0 :: rest0) st log).2.2
          (dispatchAll runsFor (readySet st.tasks (p0 :: rest0))
            (p0 :: rest0) st log).1
          results).1)
        ((dispatchAll runsFor (readySet st.tasks (p0 :: rest0))
          (p0 :: rest0) st log).2.1)
        ((processCompleted (dispatchAll runsFor
            (readySet st.tasks (p0 :: rest0)) (p0 :: rest0) st log).2.2
          (dispatchAll runsFor (readySet st.tasks (p0 :: rest0))
            (p0 :: rest0) st log).1
          results).2)
        hlen2 hnodup2 hpres2 hrank2
      refine ⟨res, st2, log2, ?_, ?_, ?_⟩
      · simp only [executeWorkflowLoop]
        rw [if_pos hall, if_neg hrne]
        exact heq
      · intro tid htid hstat
        by_cases hr : tid ∈ readySet st.tasks (p0 :: rest0)
        · have hnotd : tid ∉ (p0 :: rest0).diff
              (readySet st.tasks (p0 :: rest0)) :=
            not_mem_diff_filter _ _ _ hr
          obtain ⟨hst_pres, hres_pres⟩ := hout tid hnotd
          have hmm : tid ∈ ((dispatchAll runsFor
              (readySet st.tasks (p0 :: rest0)) (p0 :: rest0) st
              log).2.2).map Prod.fst := by
            rw [houts_fst]
            exact hr
          obtain ⟨pr, hprmem, hprfst⟩ := List.mem_map.mp hmm
          obtain ⟨tid2, out⟩ := pr
          have hfst : tid2 = tid := hprfst
          rw [hfst] at hprmem
          cases out with
          | ok v =>
            have hokm := processCompleted_ok_mark (dispatchAll runsFor
              (readySet st.tasks (p0 :: rest0)) (p0 :: rest0) st log).2.2
              (dispatchAll runsFor (readySet st.tasks (p0 :: rest0))
                (p0 :: rest0) st log).1
              results tid v hnodupouts hprmem
            rw [hres_pres, hokm]
            rfl
          | error e =>
            have hsm := (dispatchAll_tasks runsFor (p0 :: rest0)
              (readySet st.tasks (p0 :: rest0)) st log tid).2.1
              (hpres tid htid)
            obtain ⟨⟨t0, hT0, hT0s, _⟩, _⟩ := processCompleted_error_mark
              (dispatchAll runsFor (readySet st.tasks (p0 :: rest0))
                (p0 :: rest0) st log).2.2
              (dispatchAll runsFor (readySet st.tasks (p0 :: rest0))
                (p0 :: rest0) st log).1
              results tid e hnodupouts hprmem hsm
            rw [hst_pres, hT0] at hstat
            simp only [Option.map_some', Option.some.injEq] at hstat
            rw [hT0s] at hstat
            exact absurd hstat (by simp)
        · have htid2 : tid ∈ (p0 :: rest0).diff
              (readySet st.tasks (p0 :: rest0)) :=
            mem_diff_filter_of_not _ _ _ htid hr
          exact hcomp tid htid2 hstat
      · intro k hk
        have hkd : k ∉ (p0 :: rest0).diff
            (readySet st.tasks (p0 :: rest0)) :=
          fun h => hk (hsubD k h)
        have hkr : k ∉ readySet st.tasks (p0 :: rest0) :=
          fun h => hk (hsubR k h)
        have hkp : k ∉ ((dispatchAll runsFor
            (readySet st.tasks (p0 :: rest0)) (p0 :: rest0) st
            log).2.2).map Prod.fst := by
          rw [houts_fst]
          exact hkr
        obtain ⟨h1, h2⟩ := hout k hkd
        constructor
        · rw [h1, (processCompleted_ne _ _ results k hkp).1]
          exact (dispatchAll_tasks runsFor (p0 :: rest0)
            (readySet st.tasks (p0 :: rest0)) st log k).2.2 hkr
        · rw [h2]
          exact (processCompleted_ne _ _ results k hkp).2

/-- C1 counterexample: the claim promises that every task reachable from
the entry ids through the dependency relation is executed, but the working
set is seeded only with the entry ids and never grows. With entry
`[task_1]`, whose stored dependency `task_0` is not an entry, the ready
check `dep not in pending_tasks` passes vacuously: `task_1` runs to
COMPLETED and is the only task ever dispatched (the log holds exactly its
start event), while the reachable task `task_0` is never executed — it
stays PENDING and is absent from the returned mapping. -/
theorem reachable_dependency_not_executed :
    (exStateDep.tasks.lookup "task_1").map Task.dependencies =
        some ["task_0"] ∧
    (execute_workflow exRunsOk exStateDep ["task_1"]).1 =
        .ok [("task_1", some "r")] ∧
    ((execute_workflow exRunsOk exStateDep
        ["task_1"]).2.1.tasks.lookup "task_0").map Task.status =
        some TaskStatus.pending ∧
    (execute_workflow exRunsOk exStateDep ["task_1"]).2.2 =
        [Event.start "task_1" ["task_0"] [some TaskStatus.pending]
          ["task_1"]] := by
  with_unfolding_all decide

/-- C1 (amended): `execute_workflow` executes exactly the entry tasks, not
the tasks merely reachable through dependencies. For every duplicate-free
entry list whose ids are all in the Task Store and whose dependency
relation restricted to the entry set is acyclic (witnessed by a rank
function), the run terminates with an `ok` result mapping that contains an
entry for every entry task whose final status is COMPLETED, and no task
outside the entry list is touched. -/
theorem execute_workflow_entry_completeness :
    ∀ (runsFor : String → Nat → RunOutcome) (st : WorkState)
      (entry : List String) (f : String → Nat),
      entry.Nodup →
      (∀ tid ∈ entry, (st.tasks.lookup tid).isSome) →
      (∀ tid ∈ entry, ∀ t, st.tasks.lookup tid = some t →
        ∀ d ∈ t.dependencies, d ∈ entry → f d < f tid) →
      ∃ res st2 log2,
        execute_workflow runsFor st entry = (.ok res, st2, log2) ∧
        (∀ tid ∈ entry,
          (st2.tasks.lookup tid).map Task.status =
              some TaskStatus.completed →
            (res.lookup tid).isSome) ∧
        (∀ k, k ∉ entry → st2.tasks.lookup k = st.tasks.lookup k) := by
  intro runsFor st entry f hnd hpres hrank
  obtain ⟨res, st2, log2, heq, hcomp, hout⟩ :=
    executeWorkflowLoop_completes runsFor f entry.length entry st [] []
      le_rfl hnd hpres hrank
  exact ⟨res, st2, log2, heq, hcomp, fun k hk => (hout k hk).1⟩

/-- Witness for C1 at a two-task chain passed entirely as entries. -/
theorem execute_workflow_entry_completeness_witness :
    ∃ res st2 log2,
      execute_workflow exRunsOk exStateDep ["task_0", "task_1"] =
        (.ok res, st2, log2) ∧
      (∀ tid ∈ ["task_0", "task_1"],
        (st2.tasks.lookup tid).map Task.status =
            some TaskStatus.completed →
          (res.lookup tid).isSome) ∧
      (∀ k, k ∉ ["task_0", "task_1"] →
        st2.tasks.lookup k = exStateDep.tasks.lookup k) :=
  execute_workflow_entry_completeness exRunsOk exStateDep
    ["task_0", "task_1"] (fun tid => if tid = "task_1" then 1 else 0)
    (by decide) (by decide)
    (by
      intro tid htid t ht d hd hdp
      fin_cases htid
      · rw [show exStateDep.tasks.lookup "task_0" =
            some (mkTask "task_0" "t1" []) from rfl] at ht
        injection ht with h
        subst h
        simp [mkTask] at hd
      · rw [show exStateDep.tasks.lookup "task_1" =
            some (mkTask "task_1" "t2" ["task_0"]) from rfl] at ht
        injection ht with h
        subst h
        simp [mkTask] at hd
        subst hd
        decide)

/-- C8 counterexample: in the run with entry `[task_1]`, the only start
event shows `task_1` transitioning to IN_PROGRESS while its declared
dependency `task_0` still has status PENDING in the Task Store (the
snapshot recorded in the event), and `task_1` then reaches COMPLETED; so a
task can start with a PENDING dependency. -/
theorem dependency_pending_in_store_at_start :
    (execute_workflow exRunsOk exStateDep ["task_1"]).2.2 =
      [Event.start "task_1" ["task_0"] [some TaskStatus.pending]
        ["task_1"]] ∧
    ((execute_workflow exRunsOk exStateDep
        ["task_1"]).2.1.tasks.lookup "task_1").map Task.status =
      some TaskStatus.completed := by
  with_unfolding_all decide

/-- Every event of a whole run is sound when the incoming log is. -/
theorem executeWorkflowLoop_events (runsFor : String → Nat → RunOutcome) :
    ∀ (fuel : Nat) (st : WorkState) (log : List Event)
      (results : List (String × Option String)) (pending : List String),
      (∀ e ∈ log, EventOk e) →
      ∀ e ∈ (executeWorkflowLoop runsFor fuel st log results pending).2.2,
        EventOk e := by
  intro fuel
  induction fuel with
  | zero => intro st log results pending hlog; exact hlog
  | succ n ih =>
    intro st log results pending hlog
    cases pending with
    | nil => exact hlog
    | cons p0 rest0 =>
      simp only [executeWorkflowLoop]
      by_cases hall : ((p0 :: rest0).all
          (fun tid => (st.tasks.lookup tid).isSome)) = true
      · rw [if_pos hall]
        by_cases hrd : readySet st.tasks (p0 :: rest0) = []
        · rw [if_pos hrd]
          exact hlog
        · rw [if_neg hrd]
          apply ih
          apply dispatchAll_events runsFor (p0 :: rest0)
            (readySet st.tasks (p0 :: rest0)) st log ?_ hlog
          intro tid htid t ht d hd
          simp only [readySet, List.mem_filter] at htid
          obtain ⟨_, hpred⟩ := htid
          rw [ht] at hpred
          simp only [List.all_eq_true] at hpred
          have h2 := hpred d hd
          intro hdmem
          have hc : (p0 :: rest0).contains d = true :=
            List.elem_iff.mpr hdmem
          rw [hc] at h2
          exact absurd h2 (by simp)
      · rw [if_neg hall]
        exact hlog

/-- C8 (amended): a task never transitions to IN_PROGRESS while any of its
declared dependencies is still in the Executor's working set — that is the
check the ready-set comprehension actually performs. (A dependency outside
the working set may still be PENDING in the Task Store, see the
counterexample.) -/
theorem task_start_requires_deps_outside_working_set :
    ∀ (runsFor : String → Nat → RunOutcome) (st : WorkState)
      (entry : List String),
      ∀ e ∈ (execute_workflow runsFor st entry).2.2, EventOk e :=
  fun runsFor st entry =>
    executeWorkflowLoop_events runsFor entry.length st [] [] entry
      (by simp)

/-- Witness for C8 at the concrete run with entry `[task_1]`. -/
theorem task_start_requires_deps_outside_working_set_witness :
    EventOk (Event.start "task_1" ["task_0"] [some TaskStatus.pending]
      ["task_1"]) :=
  task_start_requires_deps_outside_working_set exRunsOk exStateDep
    ["task_1"]
    (Event.start "task_1" ["task_0"] [some TaskStatus.pending] ["task_1"])
    (by with_unfolding_all decide)

/-- C4: every ready task of a round produces exactly one captured outcome
(the dispatch list maps one-to-one onto the ready set, so one task's
failure never aborts its siblings); a task whose dispatch raised is marked
FAILED with `str(e)` recorded, contributes nothing to the results dict, and
is removed from the working set; a task whose dispatch returned has its
payload recorded in the results dict. -/
theorem round_partial_failure_robustness :
    ∀ (runsFor : String → Nat → RunOutcome) (pending : List String)
      (st : WorkState) (log : List Event)
      (results : List (String × Option String)),
      pending.Nodup →
      (∀ tid ∈ readySet st.tasks pending, (st.tasks.lookup tid).isSome) →
      ((((dispatchAll runsFor (readySet st.tasks pending) pending st
          log).2.2).map Prod.fst = readySet st.tasks pending) ∧
      (∀ tid out, (tid, out) ∈ (dispatchAll runsFor
          (readySet st.tasks pending) pending st log).2.2 →
        (∀ e, out = .error e →
          (∃ t0, (processCompleted (dispatchAll runsFor
                (readySet st.tasks pending) pending st log).2.2
              (dispatchAll runsFor (readySet st.tasks pending) pending st
                log).1 results).1.tasks.lookup tid = some t0 ∧
            t0.status = TaskStatus.failed ∧ t0.error = some e.str) ∧
          (processCompleted (dispatchAll runsFor
              (readySet st.tasks pending) pending st log).2.2
            (dispatchAll runsFor (readySet st.tasks pending) pending st
              log).1 results).2.lookup tid = results.lookup tid ∧
          tid ∉ pending.diff (readySet st.tasks pending)) ∧
        (∀ v, out = .ok v →
          (processCompleted (dispatchAll runsFor
              (readySet st.tasks pending) pending st log).2.2
            (dispatchAll runsFor (readySet st.tasks pending) pending st
              log).1 results).2.lookup tid = some v))) := by
  intro runsFor pending st log results hnd hpresR
  have hfst := dispatchAll_fst runsFor pending
    (readySet st.tasks pending) st log
  have hnodupouts : (((dispatchAll runsFor (readySet st.tasks pending)
      pending st log).2.2).map Prod.fst).Nodup := by
    rw [hfst]
    exact hnd.filter _
  refine ⟨hfst, ?_⟩
  intro tid out hmem
  have hfstmem : tid ∈ ((dispatchAll runsFor (readySet st.tasks pending)
      pending st log).2.2).map Prod.fst :=
    List.mem_map_of_mem Prod.fst hmem
  rw [hfst] at hfstmem
  constructor
  · intro e he
    subst he
    have hsm : ((dispatchAll runsFor (readySet st.tasks pending) pending
        st log).1.tasks.lookup tid).isSome :=
      (dispatchAll_tasks runsFor pending (readySet st.tasks pending) st
        log tid).2.1 (hpresR tid hfstmem)
    obtain ⟨ha, hb⟩ := processCompleted_error_mark _ _ results tid e
      hnodupouts hmem hsm
    exact ⟨ha, hb, not_mem_diff_filter _ _ _ hfstmem⟩
  · intro v hv
    subst hv
    exact processCompleted_ok_mark _ _ results tid v hnodupouts hmem

/-- Witness for C4: with `task_0` failing permanently and `task_1`
succeeding in the same round, `task_0` ends FAILED with its error recorded
and is dropped from both the results dict and the working set. -/
theorem round_partial_failure_robustness_witness :
    (∃ t0, (processCompleted (dispatchAll exRunsMixed
          (readySet exStateTwo.tasks ["task_0", "task_1"])
          ["task_0", "task_1"] exStateTwo []).2.2
        (dispatchAll exRunsMixed
          (readySet exStateTwo.tasks ["task_0", "task_1"])
          ["task_0", "task_1"] exStateTwo []).1
        []).1.tasks.lookup "task_0" = some t0 ∧
      t0.status = TaskStatus.failed ∧ t0.error = some "boom") ∧
    (processCompleted (dispatchAll exRunsMixed
        (readySet exStateTwo.tasks ["task_0", "task_1"])
        ["task_0", "task_1"] exStateTwo []).2.2
      (dispatchAll exRunsMixed
        (readySet exStateTwo.tasks ["task_0", "task_1"])
        ["task_0", "task_1"] exStateTwo []).1
      []).2.lookup "task_0" =
      List.lookup "task_0" ([] : List (String × Option String)) ∧
    "task_0" ∉ (["task_0", "task_1"]).diff
      (readySet exStateTwo.tasks ["task_0", "task_1"]) :=
  ((round_partial_failure_robustness exRunsMixed ["task_0", "task_1"]
      exStateTwo [] [] (by decide) (by decide)).2 "task_0"
    (.error (ExecErr.worker "boom"))
    (by with_unfolding_all decide)).1 (ExecErr.worker "boom") rfl

end Orchestrator
